import Mathlib

/-!
Shallow embedding of the NocoBase database merge-export tool
(merge-export.js and the earlier variant kept as an unnamed source file).

Modelling conventions:
* A JavaScript string is modelled as a list of UTF-16 code units
  (`JsStr := List Nat`); the regular expressions in the identifier
  normalizer act on single code units, so the character-level recursion
  below reproduces the left-to-right, non-overlapping semantics of
  `String.replace` with a global regex.
* Database state reachable through queries (column catalogs, the
  `fields` relationship-metadata table, table catalogs) is passed in
  explicitly as data; each query of the JavaScript code becomes a pure
  lookup in that data.
* The external `mysqldump` collaborator is, per the specification, a
  black box producing the row data of the dumped object; it is modelled
  by the `SqlItem.loadData` payload carrying every row of the dumped
  table or view restricted to the dumped column list.
-/

namespace MergeExport

/-- A JavaScript string as its list of UTF-16 code units. -/
abbrev JsStr := List Nat

/-- Embed a Lean string literal as a `JsStr` (code-unit list). -/
def jsStr (s : String) : JsStr := s.data.map Char.toNat

/-- Code units matched by the regex class `[A-Z]`. -/
def isUpperCode (c : Nat) : Bool := 65 ≤ c && c ≤ 90

/-- Code units matched by the regex class `[a-z]`. -/
def isLowerCode (c : Nat) : Bool := 97 ≤ c && c ≤ 122

/-- `camelToSnake` from merge-export.js:
`str.replace(/[A-Z]/g, letter => ... )` replaces every uppercase ASCII
letter (code 65..90) by an underscore (code 95) followed by the
lowercase form (code + 32). -/
def camelToSnake : JsStr → JsStr
  | [] => []
  | c :: cs =>
    if isUpperCode c then 95 :: (c + 32) :: camelToSnake cs
    else c :: camelToSnake cs

/-- `snakeToCamel` from merge-export.js:
`str.replace(/_([a-z])/g, (match, letter) => letter.toUpperCase())`
removes every underscore that is immediately followed by a lowercase
ASCII letter and uppercases that letter, scanning left to right with
non-overlapping matches. -/
def snakeToCamel : JsStr → JsStr
  | [] => []
  | [c] => [c]
  | c :: d :: cs =>
    if c == 95 && isLowerCode d then (d - 32) :: snakeToCamel cs
    else c :: snakeToCamel (d :: cs)

/-- `convertTableName` from merge-export.js.  The `DB_UNDERSCORED`
configuration value is `Option Bool`: `none` models the JavaScript
`undefined` (mode "none"), `some true` the to-separated mode and
`some false` the to-compact mode.  An empty name is returned as is
(the `if (!tableName)` falsy guard). -/
def convertTableName (tableName : JsStr) (dbUnderscored : Option Bool) : JsStr :=
  if tableName = [] then tableName
  else
    match dbUnderscored with
    | some true => camelToSnake tableName
    | some false => snakeToCamel tableName
    | none => tableName

/-- `convertTableNames` from merge-export.js (array map). -/
def convertTableNames (tableNames : List JsStr) (dbUnderscored : Option Bool) : List JsStr :=
  tableNames.map (fun name => convertTableName name dbUnderscored)

/-- `[...new Set(list)]` in JavaScript: deduplicate keeping the first
occurrence of each element, preserving insertion order. -/
def jsSetDedupAux {α : Type} [BEq α] (seen : List α) : List α → List α
  | [] => []
  | x :: xs =>
    if seen.contains x then jsSetDedupAux seen xs
    else x :: jsSetDedupAux (x :: seen) xs

/-- Deduplication as performed by `[...new Set(excludeTables)]`. -/
def jsSetDedup {α : Type} [BEq α] (l : List α) : List α := jsSetDedupAux [] l

/-- `duplicateCount = originalCount - excludeTables.length` computed in
`mergeExports` right after deduplication. -/
def duplicateCount {α : Type} [BEq α] (l : List α) : Nat :=
  l.length - (jsSetDedup l).length

/-- Result record of `getCommonColumns` in merge-export.js. -/
structure ColumnInfo where
  commonColumns : List String
  sourceColumnNames : List String
  targetColumnNames : List String
  sourceOnly : List String
  targetOnly : List String

/-- The pure core of `getCommonColumns`: the two `information_schema`
queries deliver the ordered column lists of the table in Source and in
Target; the function then computes the three filters of lines 298-300
of merge-export.js. -/
def getCommonColumns (sourceColumnNames targetColumnNames : List String) : ColumnInfo :=
  { commonColumns := sourceColumnNames.filter (fun col => targetColumnNames.contains col)
    sourceColumnNames := sourceColumnNames
    targetColumnNames := targetColumnNames
    sourceOnly := sourceColumnNames.filter (fun col => !(targetColumnNames.contains col))
    targetOnly := targetColumnNames.filter (fun col => !(sourceColumnNames.contains col)) }

/-- The validation loop of `mergeExports` (step 3): for each table the
existence checks against the Source and Target catalogs decide whether
it enters `validTables` (both), `targetOnlyTables` (missing from
Target) or `sourceOnlyTables` (present in Target, missing from
Source).  The result triple is
`(validTables, sourceOnlyTables, targetOnlyTables)`. -/
def validateTables (sourceCat targetCat : List JsStr) : List JsStr → List JsStr × List JsStr × List JsStr
  | [] => ([], [], [])
  | t :: ts =>
    if targetCat.contains t && sourceCat.contains t then
      (t :: (validateTables sourceCat targetCat ts).1,
       (validateTables sourceCat targetCat ts).2.1,
       (validateTables sourceCat targetCat ts).2.2)
    else if !(targetCat.contains t) then
      ((validateTables sourceCat targetCat ts).1,
       (validateTables sourceCat targetCat ts).2.1,
       t :: (validateTables sourceCat targetCat ts).2.2)
    else
      ((validateTables sourceCat targetCat ts).1,
       t :: (validateTables sourceCat targetCat ts).2.1,
       (validateTables sourceCat targetCat ts).2.2)

/-- The `options` longtext of one row of the `fields` table, after the
attempted `JSON.parse`: either the parse throws (`malformed`) or it
yields a payload whose `through` attribute may be absent. -/
inductive RawOptions : Type
  | malformed : RawOptions
  | parsed : Option JsStr → RawOptions

/-- One row of the `fields` relationship-metadata table as queried by
`getM2MJunctionTables` (`collection_name`, `name`, `interface`,
`options`); `options = none` models SQL NULL. -/
structure FieldRec where
  collection_name : JsStr
  field_name : String
  interface : String
  options : Option RawOptions

/-- The observable state of the Source database used by the junction
discoverer: whether the `fields` table exists, the rows of that table,
and whether the component-local query path fails (the outer
`try`/`catch`). -/
structure SourceDb where
  fieldsTableExists : Bool
  fields : List FieldRec
  queryFails : Bool

/-- `getM2MJunctionTables` from merge-export.js.  The outer catch turns
any component-local failure into an empty result; a missing `fields`
table yields the empty result; the SQL `WHERE` clause keeps rows whose
`collection_name` is among the exclusion tables with interface `m2m`
and non-NULL options; each row whose options parse and carry a truthy
`through` attribute contributes the converted table name; a row whose
options fail to parse is skipped (per-row `try`/`catch`); the collected
names are deduplicated. -/
def getM2MJunctionTables (db : SourceDb) (excludeTables : List JsStr)
    (dbUnderscored : Option Bool) : List JsStr :=
  if db.queryFails then []
  else if !db.fieldsTableExists then []
  else
    jsSetDedup
      ((db.fields.filter (fun f =>
          excludeTables.contains f.collection_name && f.interface == "m2m" && f.options.isSome)).filterMap
        (fun f =>
          match f.options with
          | some (RawOptions.parsed (some through)) =>
            if through = [] then none
            else some (convertTableName through dbUnderscored)
          | _ => none))

/-- The working exclusion list right after conversion and
deduplication in `mergeExports` (lines 649-673). -/
def workingBase (excl0 : List JsStr) (dbUnderscored : Option Bool) : List JsStr :=
  jsSetDedup
    (match dbUnderscored with
     | none => excl0
     | some b => convertTableNames excl0 (some b))

/-- The exclusion-set expansion of `mergeExports` (step 0, lines
698-714): discovery runs against the raw (reverse-converted) names and
the discovered junction tables that are not already present are
appended after the explicit entries. -/
def buildWorkingExclusions (db : SourceDb) (excl0 : List JsStr)
    (dbUnderscored : Option Bool) : List JsStr :=
  let excl := workingBase excl0 dbUnderscored
  let original :=
    match dbUnderscored with
    | none => excl
    | some b => convertTableNames excl (some (!b))
  let junction := getM2MJunctionTables db original dbUnderscored
  excl ++ junction.filter (fun x => !(excl.contains x))

/-- A cell value as delivered by the mysql2 driver with
`supportBigNumbers`/`bigNumberStrings` enabled: SQL NULL, a Date
object, a binary Buffer, a JavaScript number, or a string (BIGINT
values arrive as strings to avoid floating-point precision loss). -/
inductive Value : Type
  | vnull : Value
  | vdate : String → Value
  | vbuf : List Nat → Value
  | vnum : Int → Value
  | vstr : String → Value

/-- A row object: column name to value. -/
abbrev Row := List (String × Value)

/-- `row[col]` access on a driver row. -/
def rowGet (r : Row) (c : String) : Value :=
  ((r.find? (fun p => p.1 == c)).map Prod.snd).getD Value.vnull

/-- The values of a row restricted to a column list, in column order. -/
def restrictRow (cols : List String) (r : Row) : List Value :=
  cols.map (fun c => rowGet r c)

/-- Abstract items of the emitted merge-data section: comment lines,
the clearing `DELETE FROM` statement, and the data-loading statements
produced from the dump of the table or of the temporary view (the
payload records which columns and which rows they carry). -/
inductive SqlItem : Type
  | comment : String → SqlItem
  | deleteFrom : JsStr → SqlItem
  | loadData : JsStr → List String → List (List Value) → SqlItem

/-- Comment recognizer. -/
def isComment : SqlItem → Bool
  | SqlItem.comment _ => true
  | _ => false

/-- The column list of the dumped object in `exportTargetTablesData`:
with no Target-only columns, `mysqldump` dumps the physical table
(all Target columns); otherwise the temporary view restricted to the
common columns is dumped. -/
def dumpColumns (ci : ColumnInfo) : List String :=
  if ci.targetOnly.length = 0 then ci.targetColumnNames else ci.commonColumns

/-- The explanatory comment block written before the statements of one
table (lines 376-386 of merge-export.js). -/
def emitComments (ci : ColumnInfo) : List SqlItem :=
  [SqlItem.comment ("Dumping data for table; common column count versus source and target counts")] ++
  (if ci.sourceOnly.length > 0 then
    [SqlItem.comment ("Source-only columns will use default or NULL")] else []) ++
  (if ci.targetOnly.length > 0 then
    [SqlItem.comment ("Target-only columns ignored")] else [])

/-- The per-table body of the loop in `exportTargetTablesData`
(lines 333-538 of merge-export.js): skip with a comment when the table
is missing on either side or has no common columns; otherwise emit the
comment block, the unconditional `DELETE FROM`, and the dump output
(whose rows are all Target rows restricted to the dumped columns). -/
def emitTableMerge (tableName : JsStr) (ci : ColumnInfo) (targetRows : List Row) : List SqlItem :=
  if ci.sourceColumnNames.length = 0 then
    [SqlItem.comment ("Table not found in source database")]
  else if ci.targetColumnNames.length = 0 then
    [SqlItem.comment ("Table not found in target database")]
  else if ci.commonColumns.length = 0 then
    [SqlItem.comment ("Table has no common columns")]
  else
    emitComments ci ++
    [SqlItem.deleteFrom tableName,
     SqlItem.loadData tableName (dumpColumns ci)
       (targetRows.map (fun r => restrictRow (dumpColumns ci) r))]

/-- SQL literals produced by the value serializer of
`exportTableDataWithReplace` (unnamed source file, lines 306-315). -/
inductive SqlLiteral : Type
  | nullLit : SqlLiteral
  | quoted : String → SqlLiteral
  | hexLit : List Nat → SqlLiteral
  | numeric : Int → SqlLiteral

/-- The single-quote character. -/
def quoteCh : Char := Char.ofNat 39

/-- The escaping applied by `mysql.escape` to one character of a
string (the sqlstring escape map: NUL, backspace, tab, newline,
carriage return, ctrl-Z, double quote, single quote, backslash). -/
def escapeChar (c : Char) : List Char :=
  if c.toNat = 0 then [Char.ofNat 92, Char.ofNat 48]
  else if c.toNat = 8 then [Char.ofNat 92, Char.ofNat 98]
  else if c.toNat = 9 then [Char.ofNat 92, Char.ofNat 116]
  else if c.toNat = 10 then [Char.ofNat 92, Char.ofNat 110]
  else if c.toNat = 13 then [Char.ofNat 92, Char.ofNat 114]
  else if c.toNat = 26 then [Char.ofNat 92, Char.ofNat 90]
  else if c.toNat = 34 then [Char.ofNat 92, Char.ofNat 34]
  else if c.toNat = 39 then [Char.ofNat 92, Char.ofNat 39]
  else if c.toNat = 92 then [Char.ofNat 92, Char.ofNat 92]
  else [c]

/-- Body of an engine-escaped string literal (before quoting). -/
def escapeBody (s : String) : String := String.mk (s.data.flatMap escapeChar)

/-- The value serializer of `exportTableDataWithReplace`: `null`
becomes the NULL marker; a Date and a Buffer are passed to
`mysql.escape` (an engine-escaped literal); a number is emitted raw
(unquoted); every other value, in particular BIGINT carried as a
string, is passed to `mysql.escape` as a string literal. -/
def serializeValue : Value → SqlLiteral
  | Value.vnull => SqlLiteral.nullLit
  | Value.vdate d => SqlLiteral.quoted (escapeBody d)
  | Value.vbuf b => SqlLiteral.hexLit b
  | Value.vnum n => SqlLiteral.numeric n
  | Value.vstr s => SqlLiteral.quoted (escapeBody s)

/-- One hexadecimal digit character (lowercase, as produced by the
hex rendering of a Buffer). -/
def hexDigit (n : Nat) : Char :=
  if n < 10 then Char.ofNat (48 + n) else Char.ofNat (87 + n)

/-- Hexadecimal rendering of a byte list (`mysql.escape` renders a
Buffer as an X-prefixed hex literal). -/
def hexDigits (bytes : List Nat) : List Char :=
  bytes.flatMap (fun b => [hexDigit (b / 16), hexDigit (b % 16)])

/-- Rendering of a literal into SQL text. -/
def renderLiteral : SqlLiteral → String
  | SqlLiteral.nullLit => "NULL"
  | SqlLiteral.quoted body => String.mk (quoteCh :: (body.data ++ [quoteCh]))
  | SqlLiteral.hexLit bytes => String.mk ('X' :: quoteCh :: (hexDigits bytes ++ [quoteCh]))
  | SqlLiteral.numeric n => toString n

/-- Modelled from the claim text of C7 (spec section 4.1): in mode
to-separated only INTERNAL uppercase letters (position at least 1) are
replaced; the code, by contrast, replaces every uppercase letter. -/
def toSeparatedClaim : JsStr → JsStr
  | [] => []
  | c :: cs => c :: camelToSnake cs

/-- Uppercasing of one code unit as described by the claim text. -/
def claimUpperCode (c : Nat) : Nat := if isLowerCode c then c - 32 else c

/-- Modelled from the claim text of C7: in mode to-compact every
underscore followed by ANY letter is removed and the letter
uppercased; the code, by contrast, only reacts to a following
lowercase letter. -/
def toCompactClaim : JsStr → JsStr
  | [] => []
  | [c] => [c]
  | c :: d :: cs =>
    if c == 95 && (isLowerCode d || isUpperCode d) then
      claimUpperCode d :: toCompactClaim cs
    else c :: toCompactClaim (d :: cs)

/-- Non-recursive specification of `camelToSnake` used in the amended
C7: every code unit maps independently. -/
def separatedSpec (s : JsStr) : JsStr :=
  (s.map (fun c => if isUpperCode c then [95, c + 32] else [c])).flatten

/-- Whether an optional next code unit is a lowercase letter. -/
def nextIsLower : Option Nat → Bool
  | some d => isLowerCode d
  | none => false

/-- One output chunk of the non-recursive characterization of
`snakeToCamel` used in the amended C7.  A match of the regex ends in a
lowercase letter, never in an underscore, so two matches can never
overlap and the global left-to-right replace is equivalent to this
purely local rule: an underscore directly followed by a lowercase
letter is dropped, and a lowercase letter directly preceded by an
underscore is uppercased; every other code unit is kept. -/
def compactStep (prev : Option Nat) (c : Nat) (next : Option Nat) : JsStr :=
  if c == 95 && nextIsLower next then []
  else if isLowerCode c && prev == some 95 then [c - 32]
  else [c]

/-- Pair every code unit of a string with its direct neighbors. -/
def withNeighbors : Option Nat → JsStr → List (Option Nat × Nat × Option Nat)
  | _, [] => []
  | prev, [c] => [(prev, c, none)]
  | prev, c :: d :: cs => (prev, c, some d) :: withNeighbors (some c) (d :: cs)

/-- Non-recursive neighbor-based specification of mode to-compact:
each code unit contributes independently, judged by its two direct
neighbors. -/
def compactSpec (s : JsStr) : JsStr :=
  (withNeighbors none s).flatMap (fun tr => compactStep tr.1 tr.2.1 tr.2.2)

/-- The `fields` row of end-to-end scenario 2: field `users.roles`
with interface `m2m` and options `{"through":"userRoles"}`. -/
def c6Field : FieldRec :=
  { collection_name := jsStr ("users")
    field_name := "roles"
    interface := "m2m"
    options := some (RawOptions.parsed (some (jsStr ("userRoles")))) }

/-- The Source database of end-to-end scenario 2. -/
def c6Db : SourceDb :=
  { fieldsTableExists := true
    fields := [c6Field]
    queryFails := false }

/-! Helper lemmas. -/

theorem contains_true_iff {α : Type} [BEq α] [LawfulBEq α] {l : List α} {a : α} :
    l.contains a = true ↔ a ∈ l := List.elem_iff

theorem bool_ne_true {b : Bool} (h : b = false) : ¬(b = true) := fun hh => by
  rw [h] at hh
  exact Bool.false_ne_true hh

theorem camelToSnake_nil_iff {s : JsStr} : camelToSnake s = [] ↔ s = [] := by
  cases s with
  | nil => simp [camelToSnake]
  | cons c cs =>
    rw [camelToSnake]
    by_cases h : isUpperCode c = true <;> simp [h]

theorem camelToSnake_eq_separatedSpec : ∀ (s : JsStr), camelToSnake s = separatedSpec s
  | [] => rfl
  | c :: cs => by
    rw [camelToSnake]
    have ih := camelToSnake_eq_separatedSpec cs
    by_cases h : isUpperCode c = true <;>
      simp [separatedSpec, h, ih]

theorem camelToSnake_id_of_no_upper :
    ∀ (s : JsStr), (∀ c ∈ s, isUpperCode c = false) → camelToSnake s = s
  | [], _ => rfl
  | c :: cs, h => by
    have hc : isUpperCode c = false := h c (List.mem_cons_self _ _)
    rw [camelToSnake, if_neg (by simp [hc]),
      camelToSnake_id_of_no_upper cs (fun d hd => h d (List.mem_cons_of_mem _ hd))]

theorem snakeToCamel_id_of_no_underscore :
    ∀ (s : JsStr), 95 ∉ s → snakeToCamel s = s
  | [], _ => rfl
  | [_], _ => rfl
  | c :: d :: cs, h => by
    have hc : c ≠ 95 := fun hh => h (by simp [hh])
    have hd : (95 : Nat) ∉ d :: cs := fun hh => h (List.mem_cons_of_mem _ hh)
    rw [snakeToCamel, if_neg (by simp [hc]),
      snakeToCamel_id_of_no_underscore (d :: cs) hd]

theorem nextIsLower_none : nextIsLower none = false := rfl

theorem nextIsLower_some (d : Nat) : nextIsLower (some d) = isLowerCode d := rfl

theorem compactStep_keep (p : Option Nat) (c : Nat) (n : Option Nat)
    (h1 : (c == 95 && nextIsLower n) = false)
    (h2 : (isLowerCode c && p == some 95) = false) :
    compactStep p c n = [c] := by
  rw [compactStep, if_neg (bool_ne_true h1), if_neg (bool_ne_true h2)]

theorem compactStep_drop (p : Option Nat) (d : Nat) (hd : isLowerCode d = true) :
    compactStep p 95 (some d) = [] := by
  rw [compactStep, if_pos (by rw [nextIsLower_some, hd]; rfl)]

theorem compactStep_upper (d : Nat) (hd : isLowerCode d = true) (n : Option Nat) :
    compactStep (some 95) d n = [d - 32] := by
  have hdne : (d == 95) = false := by
    simp only [isLowerCode, Bool.and_eq_true, decide_eq_true_eq] at hd
    exact beq_eq_false_iff_ne.mpr (by omega)
  rw [compactStep, if_neg (bool_ne_true (by rw [hdne]; rfl)),
    if_pos (by rw [hd]; rfl)]

theorem compactStep_prev_eq (p : Option Nat) (c : Nat) (n : Option Nat)
    (h : isLowerCode c = true → p ≠ some 95) :
    compactStep p c n = compactStep none c n := by
  by_cases h1 : (c == 95 && nextIsLower n) = true
  · rw [compactStep, compactStep, if_pos h1, if_pos h1]
  · by_cases hl : isLowerCode c = true
    · have hp : (p == some 95) = false := by
        cases hpe : p == some 95 with
        | false => rfl
        | true => exact absurd (eq_of_beq hpe) (h hl)
      rw [compactStep, compactStep, if_neg h1, if_neg h1, hp, Bool.and_false,
        show ((none : Option Nat) == some 95) = false from rfl, Bool.and_false]
    · have hl' : isLowerCode c = false := Bool.eq_false_iff.mpr hl
      rw [compactStep, compactStep, if_neg h1, if_neg h1, hl', Bool.false_and,
        Bool.false_and]

theorem flatMap_withNeighbors_cons (p : Option Nat) (d : Nat) (cs : JsStr) :
    (withNeighbors p (d :: cs)).flatMap (fun tr => compactStep tr.1 tr.2.1 tr.2.2) =
      compactStep p d cs.head? ++
        (withNeighbors (some d) cs).flatMap (fun tr => compactStep tr.1 tr.2.1 tr.2.2) := by
  cases cs <;>
    simp [withNeighbors, List.head?_nil, List.head?_cons, List.flatMap_cons, List.flatMap_nil]

theorem withNeighbors_flatMap_eq :
    ∀ (cs : JsStr) (p : Option Nat),
      (∀ c, cs.head? = some c → isLowerCode c = true → p ≠ some 95) →
      (withNeighbors p cs).flatMap (fun tr => compactStep tr.1 tr.2.1 tr.2.2) =
      (withNeighbors none cs).flatMap (fun tr => compactStep tr.1 tr.2.1 tr.2.2)
  | [], _, _ => rfl
  | [c], p, h => by
    rw [withNeighbors, withNeighbors, List.flatMap_cons, List.flatMap_cons]
    congr 1
    exact compactStep_prev_eq p c none (h c rfl)
  | c :: d :: cs, p, h => by
    rw [withNeighbors, withNeighbors, List.flatMap_cons, List.flatMap_cons]
    congr 1
    exact compactStep_prev_eq p c (some d) (h c rfl)

theorem snakeToCamel_eq_compactSpec : ∀ (s : JsStr), snakeToCamel s = compactSpec s
  | [] => rfl
  | [c] => by
    rw [snakeToCamel, compactSpec, withNeighbors, List.flatMap_cons, List.flatMap_nil,
      List.append_nil]
    have h1 : (c == 95 && nextIsLower none) = false := by
      rw [nextIsLower_none, Bool.and_false]
    have h2 : (isLowerCode c && ((none : Option Nat) == some 95)) = false := by
      rw [show ((none : Option Nat) == some 95) = false from rfl, Bool.and_false]
    rw [compactStep_keep none c none h1 h2]
  | c :: d :: cs => by
    by_cases h1 : (c == 95 && isLowerCode d) = true
    · have hc : c = 95 := eq_of_beq ((Bool.and_eq_true _ _).mp h1).1
      have hd : isLowerCode d = true := ((Bool.and_eq_true _ _).mp h1).2
      subst hc
      have hdne : d ≠ 95 := by
        simp only [isLowerCode, Bool.and_eq_true, decide_eq_true_eq] at hd
        omega
      rw [snakeToCamel, if_pos h1, compactSpec, flatMap_withNeighbors_cons,
        List.head?_cons, compactStep_drop none d hd, List.nil_append,
        flatMap_withNeighbors_cons, compactStep_upper d hd cs.head?,
        List.singleton_append]
      congr 1
      rw [snakeToCamel_eq_compactSpec cs, compactSpec]
      exact (withNeighbors_flatMap_eq cs (some d)
        (fun _ _ _ => fun he => hdne (Option.some.inj he))).symm
    · rw [snakeToCamel, if_neg h1, compactSpec, flatMap_withNeighbors_cons,
        List.head?_cons]
      have h1' : (c == 95 && nextIsLower (some d)) = false := by
        rw [nextIsLower_some]
        exact Bool.eq_false_iff.mpr h1
      have h2' : (isLowerCode c && ((none : Option Nat) == some 95)) = false := by
        rw [show ((none : Option Nat) == some 95) = false from rfl, Bool.and_false]
      rw [compactStep_keep none c (some d) h1' h2', List.singleton_append]
      congr 1
      rw [snakeToCamel_eq_compactSpec (d :: cs), compactSpec]
      refine (withNeighbors_flatMap_eq (d :: cs) (some c) ?_).symm
      intro c' hc' hl' he
      rw [List.head?_cons] at hc'
      have hcd : c' = d := Option.some.inj hc'.symm
      subst hcd
      apply h1
      rw [Option.some.inj he, hl']
      rfl

/-! Claim theorems. -/

/-- C1: for every pair of column-name lists, `getCommonColumns` returns
`common` equal to the Source columns filtered to names present in
Target (hence an order-preserving sublist of the Source list),
`sourceOnly` equal to the Source columns absent from Target, and
`targetOnly` equal to the Target columns absent from Source; `common`
is contained in the intersection, `sourceOnly` with `common` covers
the Source columns and `targetOnly` with `common` covers the Target
columns. -/
theorem c1_column_reconciler (s t : List String) :
    (getCommonColumns s t).commonColumns = s.filter (fun c => t.contains c) ∧
    (getCommonColumns s t).sourceOnly = s.filter (fun c => !(t.contains c)) ∧
    (getCommonColumns s t).targetOnly = t.filter (fun c => !(s.contains c)) ∧
    ((getCommonColumns s t).commonColumns).Sublist s ∧
    (∀ c ∈ (getCommonColumns s t).commonColumns, c ∈ s ∧ c ∈ t) ∧
    (∀ c ∈ s, c ∈ (getCommonColumns s t).commonColumns ∨ c ∈ (getCommonColumns s t).sourceOnly) ∧
    (∀ c ∈ t, c ∈ (getCommonColumns s t).commonColumns ∨ c ∈ (getCommonColumns s t).targetOnly) := by
  refine ⟨rfl, rfl, rfl, ?_, ?_, ?_, ?_⟩ <;> simp only [getCommonColumns]
  · exact List.filter_sublist _
  · intro c hc
    rw [List.mem_filter] at hc
    exact ⟨hc.1, contains_true_iff.mp hc.2⟩
  · intro c hc
    by_cases h : t.contains c = true
    · exact Or.inl (List.mem_filter.mpr ⟨hc, h⟩)
    · exact Or.inr (List.mem_filter.mpr ⟨hc, by rw [Bool.eq_false_iff.mpr h]; rfl⟩)
  · intro c hc
    by_cases h : s.contains c = true
    · exact Or.inl (List.mem_filter.mpr ⟨contains_true_iff.mp h, contains_true_iff.mpr hc⟩)
    · exact Or.inr (List.mem_filter.mpr ⟨hc, by rw [Bool.eq_false_iff.mpr h]; rfl⟩)

/-- Witness for C1 at a concrete pair of column lists. -/
theorem c1_column_reconciler_witness :
    (("id" : String) ∈ (["id", "name"] : List String)) ∧
    (("id" : String) ∈ (getCommonColumns ["id", "name"] ["id"]).commonColumns ∨
     ("id" : String) ∈ (getCommonColumns ["id", "name"] ["id"]).sourceOnly) :=
  ⟨by decide, (c1_column_reconciler ["id", "name"] ["id"]).2.2.2.2.2.1 ("id") (by decide)⟩

/-- C7 counterexample: the code replaces EVERY uppercase letter in
to-separated mode, also a leading one, where the claim replaces only
internal uppercase letters; and in to-compact mode the code only
removes an underscore followed by a lowercase letter, where the claim
removes an underscore followed by any letter. -/
theorem c7_normalizer_cex :
    convertTableName (jsStr ("A")) (some true) ≠ toSeparatedClaim (jsStr ("A")) ∧
    convertTableName (jsStr ("a_B")) (some false) ≠ toCompactClaim (jsStr ("a_B")) := by
  decide

/-- C7 amended: under mode to-separated the normalizer replaces every
uppercase letter (a leading one included) with an underscore followed
by its lowercase form, so a name with no uppercase letters is
unchanged; under mode to-compact it removes every underscore that is
directly followed by a lowercase letter and uppercases that letter,
keeping every other code unit (the neighbor-based characterization
`compactSpec`, equivalent to the global replace because matches never
overlap), so a name without underscores is unchanged; under mode none
it is the identity. -/
theorem c7_normalizer_amended :
    (∀ s : JsStr, convertTableName s none = s) ∧
    (∀ s : JsStr, convertTableName s (some true) = separatedSpec s) ∧
    (∀ s : JsStr, (∀ c ∈ s, isUpperCode c = false) → convertTableName s (some true) = s) ∧
    (∀ s : JsStr, convertTableName s (some false) = compactSpec s) ∧
    (∀ s : JsStr, 95 ∉ s → convertTableName s (some false) = s) ∧
    convertTableName (jsStr ("user_roles")) (some false) = jsStr ("userRoles") ∧
    convertTableName (jsStr ("a_B")) (some false) = jsStr ("a_B") := by
  refine ⟨?_, ?_, ?_, ?_, ?_, by decide, by decide⟩
  · intro s
    by_cases h : s = [] <;> simp [convertTableName, h]
  · intro s
    by_cases h : s = []
    · subst h; rfl
    · simp [convertTableName, h, camelToSnake_eq_separatedSpec]
  · intro s hs
    by_cases h : s = []
    · subst h; rfl
    · simp [convertTableName, h, camelToSnake_id_of_no_upper s hs]
  · intro s
    by_cases h : s = []
    · subst h; rfl
    · simp [convertTableName, h, snakeToCamel_eq_compactSpec s]
  · intro s hs
    by_cases h : s = []
    · subst h; rfl
    · simp [convertTableName, h, snakeToCamel_id_of_no_underscore s hs]

/-- Witness for the amended C7 at concrete names. -/
theorem c7_normalizer_amended_witness :
    ((95 : Nat) ∉ jsStr ("users")) ∧
    convertTableName (jsStr ("users")) (some false) = jsStr ("users") :=
  ⟨by decide, c7_normalizer_amended.2.2.2.2.1 (jsStr ("users")) (by decide)⟩

/-- C8: for every string without a pre-existing underscore, converting
to-separated and then to-compact restores the original string. -/
theorem c8_roundtrip : ∀ (s : JsStr), 95 ∉ s → snakeToCamel (camelToSnake s) = s
  | [], _ => rfl
  | c :: cs, h => by
    have hc : c ≠ 95 := fun hh => h (by simp [hh])
    have hcs : (95 : Nat) ∉ cs := fun hh => h (List.mem_cons_of_mem _ hh)
    by_cases hu : isUpperCode c = true
    · have h65 : 65 ≤ c ∧ c ≤ 90 := by simpa [isUpperCode] using hu
      rw [camelToSnake, if_pos hu, snakeToCamel]
      have hl : isLowerCode (c + 32) = true := by
        simp only [isLowerCode, Bool.and_eq_true, decide_eq_true_eq]
        omega
      rw [if_pos (by simp [hl]), c8_roundtrip cs hcs]
      have : c + 32 - 32 = c := by omega
      rw [this]
    · rw [camelToSnake, if_neg hu]
      rcases hrec : camelToSnake cs with _ | ⟨d, ds⟩
      · have hnil : cs = [] := camelToSnake_nil_iff.mp hrec
        subst hnil
        rfl
      · rw [snakeToCamel, if_neg (by simp [hc])]
        have ih := c8_roundtrip cs hcs
        rw [hrec] at ih
        rw [ih]

/-- Witness for C8 at a concrete compact name. -/
theorem c8_roundtrip_witness :
    ((95 : Nat) ∉ jsStr ("userRoles")) ∧
    snakeToCamel (camelToSnake (jsStr ("userRoles"))) = jsStr ("userRoles") :=
  ⟨by decide, c8_roundtrip (jsStr ("userRoles")) (by decide)⟩

/-- C9 counterexample: over arbitrary column-name lists the bound
`common.length ≤ min sourceCols.length targetCols.length` fails when
the Source list repeats a name that the Target list holds once. -/
theorem c9_reconciler_cex :
    ¬ ((getCommonColumns [("a" : String), ("a" : String)] [("a" : String)]).commonColumns.length ≤
       min ([("a" : String), ("a" : String)] : List String).length
         ([("a" : String)] : List String).length) := by
  decide

/-- C9 amended: when the Source column list has no duplicate names (as
holds for the column catalog of one table), the reconciliation result
satisfies the length bound; and for arbitrary lists `common` shares no
element with `sourceOnly` nor with `targetOnly`. -/
theorem c9_reconciler_amended (s t : List String) :
    (s.Nodup → (getCommonColumns s t).commonColumns.length ≤ min s.length t.length) ∧
    (∀ c ∈ (getCommonColumns s t).commonColumns, c ∉ (getCommonColumns s t).sourceOnly) ∧
    (∀ c ∈ (getCommonColumns s t).commonColumns, c ∉ (getCommonColumns s t).targetOnly) := by
  simp only [getCommonColumns]
  refine ⟨?_, ?_, ?_⟩
  · intro hs
    refine le_min (List.length_filter_le _ _) ?_
    have hnd : (s.filter (fun col => t.contains col)).Nodup := hs.filter _
    have hsub : (s.filter (fun col => t.contains col)).toFinset ⊆ t.toFinset := by
      intro c hcm
      rw [List.mem_toFinset, List.mem_filter] at hcm
      rw [List.mem_toFinset]
      exact contains_true_iff.mp hcm.2
    have h1 := List.toFinset_card_of_nodup hnd
    have h2 := Finset.card_le_card hsub
    have h3 := t.toFinset_card_le
    omega
  · intro c hc hc2
    rw [List.mem_filter] at hc hc2
    have h2 : c ∉ t := by simpa using hc2.2
    exact h2 (contains_true_iff.mp hc.2)
  · intro c hc hc2
    rw [List.mem_filter] at hc hc2
    have h2 : c ∉ s := by simpa using hc2.2
    exact h2 hc.1

/-- Witness for the amended C9 at a concrete duplicate-free pair. -/
theorem c9_reconciler_amended_witness :
    (([("a" : String)] : List String).Nodup) ∧
    (getCommonColumns [("a" : String)] [("a" : String)]).commonColumns.length ≤
      min ([("a" : String)] : List String).length ([("a" : String)] : List String).length :=
  ⟨by decide, (c9_reconciler_amended [("a" : String)] [("a" : String)]).1 (by decide)⟩

theorem validateTables_fst_sublist (sc tc : List JsStr) :
    ∀ (l : List JsStr), ((validateTables sc tc l).1).Sublist l
  | [] => List.Sublist.refl _
  | t :: ts => by
    rw [validateTables]
    by_cases h1 : (tc.contains t && sc.contains t) = true
    · rw [if_pos h1]
      exact (validateTables_fst_sublist sc tc ts).cons₂ t
    · rw [if_neg h1]
      by_cases h2 : (!(tc.contains t)) = true
      · rw [if_pos h2]
        exact (validateTables_fst_sublist sc tc ts).cons t
      · rw [if_neg h2]
        exact (validateTables_fst_sublist sc tc ts).cons t

theorem validateTables_fst_mem (sc tc : List JsStr) :
    ∀ (l : List JsStr), ∀ x ∈ (validateTables sc tc l).1,
      tc.contains x = true ∧ sc.contains x = true
  | [], x, hx => by simp [validateTables] at hx
  | t :: ts, x, hx => by
    rw [validateTables] at hx
    by_cases h1 : (tc.contains t && sc.contains t) = true
    · rw [if_pos h1] at hx
      have hx' : x ∈ t :: (validateTables sc tc ts).1 := hx
      rcases List.mem_cons.mp hx' with h | h
      · subst h
        simpa [Bool.and_eq_true] using h1
      · exact validateTables_fst_mem sc tc ts x h
    · rw [if_neg h1] at hx
      by_cases h2 : (!(tc.contains t)) = true
      · rw [if_pos h2] at hx
        exact validateTables_fst_mem sc tc ts x hx
      · rw [if_neg h2] at hx
        exact validateTables_fst_mem sc tc ts x hx

theorem validateTables_bucket_target (sc tc : List JsStr) :
    ∀ (l : List JsStr), ∀ x ∈ l, tc.contains x = false →
      x ∈ (validateTables sc tc l).2.2
  | [], x, hx, _ => by simp at hx
  | t :: ts, x, hx, hxc => by
    rw [validateTables]
    rcases List.mem_cons.mp hx with h | h
    · subst h
      have hc1 : (tc.contains x && sc.contains x) = false := by rw [hxc]; rfl
      have hc2 : (!(tc.contains x)) = true := by rw [hxc]; rfl
      rw [if_neg (bool_ne_true hc1), if_pos hc2]
      exact List.mem_cons_self _ _
    · have ih := validateTables_bucket_target sc tc ts x h hxc
      by_cases h1 : (tc.contains t && sc.contains t) = true
      · rw [if_pos h1]
        exact ih
      · rw [if_neg h1]
        by_cases h2 : (!(tc.contains t)) = true
        · rw [if_pos h2]
          exact List.mem_cons_of_mem _ ih
        · rw [if_neg h2]
          exact ih

theorem validateTables_bucket_source (sc tc : List JsStr) :
    ∀ (l : List JsStr), ∀ x ∈ l, tc.contains x = true → sc.contains x = false →
      x ∈ (validateTables sc tc l).2.1
  | [], x, hx, _, _ => by simp at hx
  | t :: ts, x, hx, hxt, hxs => by
    rw [validateTables]
    rcases List.mem_cons.mp hx with h | h
    · subst h
      have hc1 : (tc.contains x && sc.contains x) = false := by rw [hxt, hxs]; rfl
      have hc2 : (!(tc.contains x)) = false := by rw [hxt]; rfl
      rw [if_neg (bool_ne_true hc1), if_neg (bool_ne_true hc2)]
      exact List.mem_cons_self _ _
    · have ih := validateTables_bucket_source sc tc ts x h hxt hxs
      by_cases h1 : (tc.contains t && sc.contains t) = true
      · rw [if_pos h1]
        exact ih
      · rw [if_neg h1]
        by_cases h2 : (!(tc.contains t)) = true
        · rw [if_pos h2]
          exact ih
        · rw [if_neg h2]
          exact List.mem_cons_of_mem _ ih

/-- C2: after deduplication of the exclusion list, every table kept by
the validation loop exists in both catalogs; a table present only in
the Target catalog is categorized in the bucket of tables missing from
Source and dropped from the validated set (end-to-end scenario 4); a
table missing from the Target catalog is likewise categorized and
dropped; the reported duplicate count is the original length minus the
deduplicated length. -/
theorem c2_table_set_builder (sourceCat targetCat : List JsStr) (l : List JsStr) :
    (∀ x ∈ (validateTables sourceCat targetCat (jsSetDedup l)).1,
       x ∈ sourceCat ∧ x ∈ targetCat) ∧
    (∀ x ∈ jsSetDedup l, x ∈ targetCat → x ∉ sourceCat →
       x ∉ (validateTables sourceCat targetCat (jsSetDedup l)).1 ∧
       x ∈ (validateTables sourceCat targetCat (jsSetDedup l)).2.1) ∧
    (∀ x ∈ jsSetDedup l, x ∉ targetCat →
       x ∉ (validateTables sourceCat targetCat (jsSetDedup l)).1 ∧
       x ∈ (validateTables sourceCat targetCat (jsSetDedup l)).2.2) ∧
    duplicateCount l = l.length - (jsSetDedup l).length := by
  refine ⟨?_, ?_, ?_, rfl⟩
  · intro x hx
    have h := validateTables_fst_mem sourceCat targetCat (jsSetDedup l) x hx
    exact ⟨contains_true_iff.mp h.2, contains_true_iff.mp h.1⟩
  · intro x hx hxt hxs
    constructor
    · intro hv
      exact hxs (contains_true_iff.mp (validateTables_fst_mem _ _ _ x hv).2)
    · exact validateTables_bucket_source sourceCat targetCat _ x hx
        (contains_true_iff.mpr hxt)
        (Bool.eq_false_iff.mpr (fun hcc => hxs (contains_true_iff.mp hcc)))
  · intro x hx hxt
    constructor
    · intro hv
      exact hxt (contains_true_iff.mp (validateTables_fst_mem _ _ _ x hv).1)
    · exact validateTables_bucket_target sourceCat targetCat _ x hx
        (Bool.eq_false_iff.mpr (fun hcc => hxt (contains_true_iff.mp hcc)))

/-- Witness for C2: a table absent from the Target catalog is dropped
and categorized. -/
theorem c2_table_set_builder_witness :
    (jsStr ("t") ∈ jsSetDedup [jsStr ("t")]) ∧
    (jsStr ("t") ∉ ([] : List JsStr)) ∧
    (jsStr ("t") ∉ (validateTables [jsStr ("t")] [] (jsSetDedup [jsStr ("t")])).1 ∧
     jsStr ("t") ∈ (validateTables [jsStr ("t")] [] (jsSetDedup [jsStr ("t")])).2.2) :=
  ⟨by decide, by decide,
    (c2_table_set_builder [jsStr ("t")] [] [jsStr ("t")]).2.2.1 (jsStr ("t"))
      (by decide) (by decide)⟩

/-- C10: the working exclusion list keeps the converted, deduplicated
explicit list as a prefix: the discovered junction tables are appended
after it and only when not already present; the validated set produced
by existence filtering is an order-preserving sublist of the working
list. -/
theorem c10_stable_order (db : SourceDb) (excl0 : List JsStr) (u : Option Bool)
    (sourceCat targetCat : List JsStr) :
    (∃ extra, buildWorkingExclusions db excl0 u = workingBase excl0 u ++ extra ∧
       ∀ x ∈ extra, x ∉ workingBase excl0 u) ∧
    ((validateTables sourceCat targetCat (buildWorkingExclusions db excl0 u)).1).Sublist
      (buildWorkingExclusions db excl0 u) := by
  constructor
  · refine ⟨_, rfl, ?_⟩
    intro x hx
    rw [List.mem_filter] at hx
    have h2 : x ∉ workingBase excl0 u := by simpa using hx.2
    exact h2
  · exact validateTables_fst_sublist _ _ _

/-- Witness for C10 at a concrete pipeline state. -/
theorem c10_stable_order_witness :
    (∃ extra,
       buildWorkingExclusions { fieldsTableExists := false, fields := [], queryFails := false }
           [jsStr ("t")] none =
         workingBase [jsStr ("t")] none ++ extra ∧
       ∀ x ∈ extra, x ∉ workingBase [jsStr ("t")] none) ∧
    ((validateTables [jsStr ("t")] [jsStr ("t")]
        (buildWorkingExclusions { fieldsTableExists := false, fields := [], queryFails := false }
          [jsStr ("t")] none)).1).Sublist
      (buildWorkingExclusions { fieldsTableExists := false, fields := [], queryFails := false }
        [jsStr ("t")] none) :=
  c10_stable_order { fieldsTableExists := false, fields := [], queryFails := false }
    [jsStr ("t")] none [jsStr ("t")] [jsStr ("t")]

theorem emitComments_all (ci : ColumnInfo) :
    ∀ item ∈ emitComments ci, isComment item = true := by
  have hall : (emitComments ci).all isComment = true := by
    rw [emitComments]
    split_ifs <;> rfl
  exact fun item h => List.all_eq_true.mp hall item h

/-- C3: for a validated table (nonempty column lists on both sides),
when the reconciled common column set is empty the emitter produces
only comment items and no statements; otherwise it produces the
comment block followed by the unconditional clearing `DELETE FROM` and
then the data-loading statement carrying every Target row restricted
to the dumped columns, whose set is exactly the common column set. -/
theorem c3_merge_emitter (s t : List String) (tableName : JsStr) (rows : List Row)
    (hs : s ≠ []) (ht : t ≠ []) :
    ((getCommonColumns s t).commonColumns = [] →
       ∀ item ∈ emitTableMerge tableName (getCommonColumns s t) rows, isComment item = true) ∧
    ((getCommonColumns s t).commonColumns ≠ [] →
       (∀ item ∈ emitComments (getCommonColumns s t), isComment item = true) ∧
       emitTableMerge tableName (getCommonColumns s t) rows =
         emitComments (getCommonColumns s t) ++
         [SqlItem.deleteFrom tableName,
          SqlItem.loadData tableName (dumpColumns (getCommonColumns s t))
            (rows.map (fun r => restrictRow (dumpColumns (getCommonColumns s t)) r))] ∧
       (∀ c, c ∈ dumpColumns (getCommonColumns s t) ↔ c ∈ (getCommonColumns s t).commonColumns)) := by
  have hs' : ¬((getCommonColumns s t).sourceColumnNames.length = 0) := by
    simp only [getCommonColumns]
    exact fun h => hs (List.length_eq_zero.mp h)
  have ht' : ¬((getCommonColumns s t).targetColumnNames.length = 0) := by
    simp only [getCommonColumns]
    exact fun h => ht (List.length_eq_zero.mp h)
  constructor
  · intro hcom item hitem
    rw [emitTableMerge, if_neg hs', if_neg ht', if_pos (by rw [hcom]; rfl)] at hitem
    have : item = SqlItem.comment ("Table has no common columns") := by
      simpa using hitem
    subst this
    rfl
  · intro hcom
    have hcom' : ¬((getCommonColumns s t).commonColumns.length = 0) :=
      fun h => hcom (List.length_eq_zero.mp h)
    refine ⟨emitComments_all _, ?_, ?_⟩
    · rw [emitTableMerge, if_neg hs', if_neg ht', if_neg hcom']
    · intro c
      rw [dumpColumns]
      by_cases hto : (getCommonColumns s t).targetOnly.length = 0
      · rw [if_pos hto]
        have hnil : (getCommonColumns s t).targetOnly = [] := List.length_eq_zero.mp hto
      -- with no Target-only columns every Target column carries over
        constructor
        · intro hct
          have hall := List.filter_eq_nil_iff.mp hnil
          have hsc : s.contains c = true := by
            have h1 := hall c hct
            simpa using h1
          exact List.mem_filter.mpr ⟨contains_true_iff.mp hsc, contains_true_iff.mpr hct⟩
        · intro hcc
          exact contains_true_iff.mp (List.mem_filter.mp hcc).2
      · rw [if_neg hto]

/-- Witness for C3 at a concrete one-column table. -/
theorem c3_merge_emitter_witness :
    ((["id"] : List String) ≠ []) ∧
    ((getCommonColumns ["id"] ["id"]).commonColumns = [] →
       ∀ item ∈ emitTableMerge (jsStr ("t")) (getCommonColumns ["id"] ["id"]) [],
         isComment item = true) :=
  ⟨by decide, (c3_merge_emitter ["id"] ["id"] (jsStr ("t")) [] (by decide) (by decide)).1⟩

/-- C4: the row-value serializer maps SQL NULL to the literal NULL
marker, a Date and a Buffer to engine-escaped literals, a number to an
unquoted numeric literal, and every other value (in particular BIGINT
carried as a string to avoid floating-point precision loss) to an
engine-escaped string literal; rendered quoted literals begin and end
with the quote character while numeric literals render as the bare
decimal representation. -/
theorem c4_value_serialization :
    serializeValue Value.vnull = SqlLiteral.nullLit ∧
    renderLiteral (serializeValue Value.vnull) = "NULL" ∧
    (∀ d, serializeValue (Value.vdate d) = SqlLiteral.quoted (escapeBody d)) ∧
    (∀ b, serializeValue (Value.vbuf b) = SqlLiteral.hexLit b) ∧
    (∀ n, serializeValue (Value.vnum n) = SqlLiteral.numeric n) ∧
    (∀ n, renderLiteral (SqlLiteral.numeric n) = toString n) ∧
    (∀ s, serializeValue (Value.vstr s) = SqlLiteral.quoted (escapeBody s)) ∧
    (∀ body, (renderLiteral (SqlLiteral.quoted body)).data.head? = some quoteCh ∧
       (renderLiteral (SqlLiteral.quoted body)).data.getLast? = some quoteCh) := by
  refine ⟨rfl, rfl, fun d => rfl, fun b => rfl, fun n => rfl, fun n => rfl, fun s => rfl, ?_⟩
  intro body
  refine ⟨rfl, ?_⟩
  show (quoteCh :: (body.data ++ [quoteCh])).getLast? = some quoteCh
  rw [show quoteCh :: (body.data ++ [quoteCh]) = (quoteCh :: body.data) ++ [quoteCh] from rfl]
  exact List.getLast?_concat _

/-- C5: the junction discoverer returns the empty set when the
relationship-metadata table does not exist; a component-local query
failure is converted into the empty result instead of propagating; and
a field whose options payload is malformed is skipped without
affecting the discovery result of the other fields. -/
theorem c5_junction_discoverer (db : SourceDb) (excl : List JsStr) (u : Option Bool)
    (e q : Bool) (pre post : List FieldRec) (f : FieldRec) :
    (db.fieldsTableExists = false → getM2MJunctionTables db excl u = []) ∧
    (db.queryFails = true → getM2MJunctionTables db excl u = []) ∧
    (f.options = some RawOptions.malformed →
       getM2MJunctionTables ⟨e, pre ++ f :: post, q⟩ excl u =
       getM2MJunctionTables ⟨e, pre ++ post, q⟩ excl u) := by
  refine ⟨?_, ?_, ?_⟩
  · intro h
    rw [getM2MJunctionTables]
    by_cases hq : db.queryFails = true
    · rw [if_pos hq]
    · rw [if_neg hq, if_pos (by rw [h]; rfl)]
  · intro h
    rw [getM2MJunctionTables, if_pos h]
  · intro hf
    cases q with
    | true => rfl
    | false =>
      cases e with
      | false => rfl
      | true =>
        rw [getM2MJunctionTables, getM2MJunctionTables]
        dsimp only
        congr 1
        rw [List.filter_append, List.filter_append, List.filterMap_append,
          List.filterMap_append, List.filter_cons]
        by_cases hp :
            (excl.contains f.collection_name && f.interface == "m2m" && f.options.isSome) = true
        · rw [if_pos hp, List.filterMap_cons]
          simp [hf]
        · rw [if_neg hp]

/-- Witness for C5 at a concrete database state. -/
theorem c5_junction_discoverer_witness :
    (({ fieldsTableExists := false, fields := [], queryFails := false } : SourceDb).fieldsTableExists
       = false) ∧
    getM2MJunctionTables { fieldsTableExists := false, fields := [], queryFails := false }
      [jsStr ("users")] none = [] :=
  ⟨rfl,
    (c5_junction_discoverer { fieldsTableExists := false, fields := [], queryFails := false }
      [jsStr ("users")] none false false [] []
      { collection_name := [], field_name := "", interface := "", options := none }).1 rfl⟩

/-- C6 (end-to-end scenario 2): with explicit exclusion list `[users]`,
relationship metadata holding field `users.roles` of interface `m2m`
with options through `userRoles`, and conversion mode to-separated,
discovery yields the junction table converted to `user_roles` (already
deduplicated), and the working exclusion set becomes exactly
`[users, user_roles]`. -/
theorem c6_scenario_two :
    getM2MJunctionTables c6Db [jsStr ("users")] (some true) = [jsStr ("user_roles")] ∧
    buildWorkingExclusions c6Db [jsStr ("users")] (some true) =
      [jsStr ("users"), jsStr ("user_roles")] := by
  exact ⟨by decide, by decide⟩

end MergeExport
